import Mathlib

/-
Verification development for the taco traffic-control service.

The Rust sources are shallowly embedded as executable Lean definitions:

* `Taco.Netem` models `src/netem.rs`: the `Controls` record, its regex-based
  status-line parser (`Controls.from_str` and the per-field sub-parsers),
  argument serialization (`to_args`), interface-list extraction
  (`output_to_interfaces`) and the executor (`NetEm::execute`), the latter
  parameterised by the outcome of the external process spawn.
* `Taco.Cmd` models `src/command.rs`: its `Controls`, `is_valid`, `Tc::get_args`
  and `Tc::execute`.
* `Taco.Proto` models `src/proto.rs`: the HTTP/1.1 request decoder, with the
  external `httparse` crate represented at its documented interface
  (complete-with-count / incomplete / error, a 16-slot header array).

Modelling conventions: byte buffers and strings are `List Char` / `String`
(all inputs of interest are ASCII); Rust `f64` values that originate from
decimal literals in the status text are represented exactly as `ℚ` (no float
arithmetic is ever performed on them in the source); `u64`/`u32`/`i32`
parsing keeps the exact overflow bounds checks of Rust's `parse`. Regex
matching is embedded per pattern with leftmost-scan and greedy backtracking
semantics (`scan`, `dotStarCap`), with `.` not matching a newline and `\s`
the ASCII whitespace class, matching the behaviour of the `regex` crate on
these patterns.
-/

namespace Taco

/-- ASCII whitespace, the `\s` class of the regex crate restricted to ASCII. -/
def isWS (c : Char) : Bool :=
  c = ' ' || c = '\t' || c = '\n' || c = '\r' || c = '\x0b' || c = '\x0c'

/-- The `[\d\.]` character class used by the numeric capture groups. -/
def isNumCh (c : Char) : Bool := c.isDigit || c = '.'

/-- The `[-\d]` character class of the limit pattern. -/
def isLimCh (c : Char) : Bool := c.isDigit || c = '-'

/-- Digit-string value (no sign). -/
def digsVal (t : List Char) : Nat := t.foldl (fun a c => a * 10 + (c.toNat - 48)) 0

/-- All characters are decimal digits. -/
def decDigits (t : List Char) : Bool := t.all Char.isDigit

/-- Exact model of Rust `f64::from_str` on tokens drawn from `[\d\.]+`:
one optional dot, digits elsewhere, at least one digit; the decimal value is
kept exactly as a rational (built with `mkRat` from integer arithmetic). -/
def parseRat (t : List Char) : Option ℚ :=
  match t.splitOn '.' with
  | [ip] => if ip ≠ [] ∧ decDigits ip = true then some (mkRat (digsVal ip) 1) else none
  | [ip, fp] =>
      if (ip ≠ [] ∨ fp ≠ []) ∧ decDigits ip = true ∧ decDigits fp = true then
        some (mkRat (digsVal ip * 10 ^ fp.length + digsVal fp) (10 ^ fp.length))
      else none
  | _ => none

/-- Rust `str::parse::<uXX>/::<i32>` helpers on the captured tokens. -/
def parseNatAll (t : List Char) : Option Nat :=
  if t ≠ [] ∧ decDigits t = true then some (digsVal t) else none

def u64Max : Nat := 18446744073709551615

def parseU64 (t : List Char) : Option Nat :=
  (parseNatAll t).bind fun n => if n ≤ u64Max then some n else none

def parseU32 (t : List Char) : Option Nat :=
  (parseNatAll t).bind fun n => if n ≤ 4294967295 then some n else none

def parseI32 (t : List Char) : Option Int :=
  match t with
  | '-' :: rest =>
      (parseNatAll rest).bind fun n => if n ≤ 2147483648 then some (-(n : Int)) else none
  | _ => (parseNatAll t).bind fun n => if n ≤ 2147483647 then some (n : Int) else none

/-- Match a literal, returning the rest of the input. -/
def lit : List Char → List Char → Option (List Char)
  | [], s => some s
  | _ :: _, [] => none
  | c :: t, d :: s => if c = d then lit t s else none

/-- Match exactly one character of a class. -/
def one (p : Char → Bool) : List Char → Option (List Char)
  | [] => none
  | c :: s => if p c then some s else none

/-- Greedy `class+`: maximal non-empty span of a class.  Every use site in the
embedded patterns is followed by a token disjoint from the class, so maximal
munch coincides with the backtracking semantics. -/
def plus (p : Char → Bool) (s : List Char) : Option (List Char × List Char) :=
  let t := s.takeWhile p
  if t.isEmpty then none else some (t, s.dropWhile p)

/-- Greedy `.*` followed by a continuation, with capture of the consumed
characters.  Longest consumption is preferred and `.` does not match a
newline, as in the regex crate. -/
def dotStarCap {α : Type} (k : List Char → Option α) : List Char → Option (List Char × α)
  | [] => (k []).map (fun a => ([], a))
  | c :: cs =>
      if c = '\n' then (k (c :: cs)).map (fun a => ([], a))
      else
        match dotStarCap k cs with
        | some (tok, a) => some (c :: tok, a)
        | none => (k (c :: cs)).map (fun a => ([], a))

/-- Leftmost unanchored search: try the pattern at each start position. -/
def scan {α : Type} (k : List Char → Option α) : List Char → Option α
  | [] => k []
  | c :: cs =>
      match k (c :: cs) with
      | some a => some a
      | none => scan k cs

end Taco

namespace Taco.Netem

/-- Rust float formatting is abstracted by the exact rational rendering; no
claim depends on the digits of a formatted number. -/
def ratStr (q : ℚ) : String :=
  toString q.num ++ (if q.den = 1 then "" else "/" ++ toString q.den)

def pctString (q : ℚ) : String := ratStr q ++ "%"

def msString (q : ℚ) : String := ratStr q ++ "ms"

/-- `Limit { packets: i32 }` from `src/netem.rs`. -/
structure Limit where
  packets : Int
deriving DecidableEq

def Limit.to_args (l : Limit) : List String := ["limit", toString l.packets]

/-- `limit\s(?P<packets>[-\d]+)` applied at one position. -/
def limitAt (s : List Char) : Option (List Char) := do
  let s1 ← lit ("limit".toList) s
  let s2 ← one isWS s1
  let (tok, _) ← plus isLimCh s2
  pure tok

def Limit.from_str (s : String) : Except String Limit :=
  match scan limitAt s.toList with
  | none => .error "no limit"
  | some tok =>
      match parseI32 tok with
      | some n => .ok ⟨n⟩
      | none => .error "limit packets parse error"

inductive Distribution | uniform | normal | pareto | paretonormal
deriving DecidableEq

def Distribution.toStr : Distribution → String
  | .uniform => "uniform"
  | .normal => "normal"
  | .pareto => "pareto"
  | .paretonormal => "paretonormal"

/-- `Delay` from `src/netem.rs` (time/jitter in ms, correlation a percentage). -/
structure Delay where
  time : ℚ
  jitter : Option ℚ
  correlation : Option ℚ
  distribution : Option Distribution
deriving DecidableEq

def Delay.to_args (d : Delay) : List String :=
  ["delay", msString d.time]
    ++ (match d.jitter with
        | some j =>
            msString j :: (match d.correlation with | some c => [pctString c] | none => [])
        | none => [])
    ++ (match d.distribution with | some dist => ["distribution", dist.toStr] | none => [])

/-- Captures of `delay\s(?P<time>[\d\.]+)ms(\s{2}(?P<jitter>[\d\.]+)ms\s((?P<correlation>[\d\.]+)%)?)?`. -/
structure DelayCaps where
  time : List Char
  jitter : Option (List Char)
  corr : Option (List Char)

/-- The optional `([\d\.]+)%` correlation tail shared by several patterns. -/
def corrCap (s : List Char) : Option (List Char) := do
  let (c, s1) ← plus isNumCh s
  let _ ← lit ("%".toList) s1
  pure c

/-- The optional jitter group of the delay pattern (two spaces, jitter, one
space, optional correlation). -/
def delayTail (s : List Char) : Option (List Char × Option (List Char)) := do
  let s1 ← one isWS s
  let s2 ← one isWS s1
  let (j, s3) ← plus isNumCh s2
  let s4 ← lit ("ms".toList) s3
  let s5 ← one isWS s4
  match corrCap s5 with
  | some c => pure (j, some c)
  | none => pure (j, none)

def delayAt (s : List Char) : Option DelayCaps := do
  let s1 ← lit ("delay".toList) s
  let s2 ← one isWS s1
  let (t, s3) ← plus isNumCh s2
  let s4 ← lit ("ms".toList) s3
  match delayTail s4 with
  | some (j, c) => pure ⟨t, some j, c⟩
  | none => pure ⟨t, none, none⟩

def Delay.from_str (s : String) : Except String Delay :=
  match scan delayAt s.toList with
  | none => .error "no delay"
  | some caps =>
      match parseRat caps.time with
      | none => .error "delay time parse error"
      | some time =>
          let jitter : Option ℚ := caps.jitter.bind parseRat
          let correlation : Option ℚ :=
            if jitter.isSome then caps.corr.bind parseRat else none
          .ok ⟨time, jitter, correlation, none⟩

/-- `Loss` from `src/netem.rs`. -/
structure Loss where
  percent : ℚ
  correlation : Option ℚ
  ecn : Bool
deriving DecidableEq

def Loss.to_args (l : Loss) : List String :=
  ["loss", "random", pctString l.percent]
    ++ (match l.correlation with | some c => [pctString c] | none => [])
    ++ (if l.ecn then ["ecn"] else [])

structure LossCaps where
  pct : List Char
  corr : Option (List Char)
  ecn : Bool

/-- The optional `(\s(?P<correlation>[\d\.]+)%)` group. -/
def wsCorr (s : List Char) : Option (List Char × List Char) := do
  let s1 ← one isWS s
  let (c, s2) ← plus isNumCh s1
  let s3 ← lit ("%".toList) s2
  pure (c, s3)

/-- The `(.*\s(?P<ecn>ecn))?` group: search the rest of the line for a
whitespace-preceded `ecn` token. -/
def ecnFind (s : List Char) : Bool :=
  (dotStarCap (fun t => do
    let t1 ← one isWS t
    let _ ← lit ("ecn".toList) t1
    pure ()) s).isSome

def lossAt (s : List Char) : Option LossCaps := do
  let s1 ← lit ("loss".toList) s
  let s2 ← one isWS s1
  let (p, s3) ← plus isNumCh s2
  let s4 ← lit ("%".toList) s3
  match wsCorr s4 with
  | some (c, s5) => pure ⟨p, some c, ecnFind s5⟩
  | none => pure ⟨p, none, ecnFind s4⟩

def Loss.from_str (s : String) : Except String Loss :=
  match scan lossAt s.toList with
  | none => .error "no loss"
  | some caps =>
      match parseRat caps.pct with
      | none => .error "loss percent parse error"
      | some percent => .ok ⟨percent, caps.corr.bind parseRat, caps.ecn⟩

/-- `Corrupt` from `src/netem.rs`. -/
structure Corrupt where
  percent : ℚ
  correlation : Option ℚ
deriving DecidableEq

def Corrupt.to_args (x : Corrupt) : List String :=
  ["corrupt", pctString x.percent]
    ++ (match x.correlation with | some c => [pctString c] | none => [])

structure PctCaps where
  pct : List Char
  corr : Option (List Char)

/-- `word\s(?P<percent>[\d\.]+)%(\s(?P<correlation>[\d\.]+)%)?` applied at one
position, shared by the corrupt and duplicate patterns. -/
def pctPatAt (word : String) (s : List Char) : Option PctCaps := do
  let s1 ← lit word.toList s
  let s2 ← one isWS s1
  let (p, s3) ← plus isNumCh s2
  let s4 ← lit ("%".toList) s3
  match wsCorr s4 with
  | some (c, _) => pure ⟨p, some c⟩
  | none => pure ⟨p, none⟩

def Corrupt.from_str (s : String) : Except String Corrupt :=
  match scan (pctPatAt "corrupt") s.toList with
  | none => .error "no corrupt"
  | some caps =>
      match parseRat caps.pct with
      | none => .error "corrupt percent parse error"
      | some percent => .ok ⟨percent, caps.corr.bind parseRat⟩

/-- `Duplicate` from `src/netem.rs`. -/
structure Duplicate where
  percent : ℚ
  correlation : Option ℚ
deriving DecidableEq

def Duplicate.to_args (x : Duplicate) : List String :=
  ["duplicate", pctString x.percent]
    ++ (match x.correlation with | some c => [pctString c] | none => [])

def Duplicate.from_str (s : String) : Except String Duplicate :=
  match scan (pctPatAt "duplicate") s.toList with
  | none => .error "no duplicate"
  | some caps =>
      match parseRat caps.pct with
      | none => .error "duplicate percent parse error"
      | some percent => .ok ⟨percent, caps.corr.bind parseRat⟩

/-- `Reorder` from `src/netem.rs` (`distance` is the gap). -/
structure Reorder where
  percent : ℚ
  correlation : Option ℚ
  distance : Option Nat
deriving DecidableEq

def Reorder.to_args (r : Reorder) : List String :=
  ["reorder", pctString r.percent]
    ++ (match r.correlation with | some c => [pctString c] | none => [])
    ++ (match r.distance with | some d => ["gap", toString d] | none => [])

structure ReorderCaps where
  pct : List Char
  corr : Option (List Char)
  dist : Option (List Char)

/-- The `(.*\sgap\s(?P<distance>[\d]+))?` group: search the rest of the line
for a whitespace-preceded `gap` token followed by digits. -/
def gapFind (s : List Char) : Option (List Char) :=
  (dotStarCap (fun t => do
    let t1 ← one isWS t
    let t2 ← lit ("gap".toList) t1
    let t3 ← one isWS t2
    let (d, _) ← plus Char.isDigit t3
    pure d) s).map Prod.snd

def reorderAt (s : List Char) : Option ReorderCaps := do
  let s1 ← lit ("reorder".toList) s
  let s2 ← one isWS s1
  let (p, s3) ← plus isNumCh s2
  let s4 ← lit ("%".toList) s3
  match wsCorr s4 with
  | some (c, s5) => pure ⟨p, some c, gapFind s5⟩
  | none => pure ⟨p, none, gapFind s4⟩

def Reorder.from_str (s : String) : Except String Reorder :=
  match scan reorderAt s.toList with
  | none => .error "no reorder"
  | some caps =>
      match parseRat caps.pct with
      | none => .error "reorder percent parse error"
      | some percent => .ok ⟨percent, caps.corr.bind parseRat, caps.dist.bind parseU32⟩

/-- `Rate { rate: u64 }` from `src/netem.rs`. -/
structure Rate where
  rate : Nat
deriving DecidableEq

def Rate.to_args (r : Rate) : List String := ["rate", toString r.rate ++ "bit"]

/-- `u64::checked_mul`. -/
def checkedMul (a b : Nat) : Option Nat := if a * b ≤ u64Max then some (a * b) else none

/-- The unit dispatch of `Rate::from_str`, including its (unreachable)
unrecognised-unit error arm. -/
def Rate.applyUnit (n : Nat) (u : String) : Except String Nat :=
  match u with
  | "bit" => .ok n
  | "Kbit" => .ok ((checkedMul n 1000).getD u64Max)
  | "Mbit" => .ok ((checkedMul n 1000000).getD u64Max)
  | "Gbit" => .ok ((checkedMul n 1000000000).getD u64Max)
  | "Tbit" => .ok ((checkedMul n 1000000000000).getD u64Max)
  | _ => .error ("error unit: " ++ u)

/-- The `(?P<unit>[KMGT]?bit)` group. -/
def unitAt : List Char → Option (List Char)
  | 'K' :: r => (lit ("bit".toList) r).map (fun _ => "Kbit".toList)
  | 'M' :: r => (lit ("bit".toList) r).map (fun _ => "Mbit".toList)
  | 'G' :: r => (lit ("bit".toList) r).map (fun _ => "Gbit".toList)
  | 'T' :: r => (lit ("bit".toList) r).map (fun _ => "Tbit".toList)
  | r => (lit ("bit".toList) r).map (fun _ => "bit".toList)

/-- `rate\s(?P<number>[\d\.]+)(?P<unit>[KMGT]?bit)` applied at one position. -/
def rateAt (s : List Char) : Option (List Char × List Char) := do
  let s1 ← lit ("rate".toList) s
  let s2 ← one isWS s1
  let (n, s3) ← plus isNumCh s2
  let u ← unitAt s3
  pure (n, u)

def rateMatch (s : List Char) : Option (List Char × List Char) := scan rateAt s

def Rate.from_str (s : String) : Except String Rate :=
  match rateMatch s.toList with
  | none => .error "no rate"
  | some (ntok, utok) =>
      match parseU64 ntok with
      | none => .error "rate number parse error"
      | some n =>
          match Rate.applyUnit n (String.mk utok) with
          | .ok r => .ok ⟨r⟩
          | .error e => .error e

/-- The `Controls` record of `src/netem.rs` (field order as in the source). -/
structure Controls where
  limit : Option Limit
  delay : Option Delay
  loss : Option Loss
  corrupt : Option Corrupt
  duplicate : Option Duplicate
  reorder : Option Reorder
  rate : Option Rate
deriving DecidableEq

def Controls.default : Controls := ⟨none, none, none, none, none, none, none⟩

/-- `Controls::to_args` from `src/netem.rs`: append each present field in
source order, with the reorder tokens guarded by the presence of delay. -/
def Controls.to_args (c : Controls) : List String :=
  (match c.limit with | some x => x.to_args | none => [])
    ++ (match c.delay with | some x => x.to_args | none => [])
    ++ (match c.loss with | some x => x.to_args | none => [])
    ++ (match c.duplicate with | some x => x.to_args | none => [])
    ++ (if c.delay.isSome then (match c.reorder with | some x => x.to_args | none => []) else [])
    ++ (match c.corrupt with | some x => x.to_args | none => [])
    ++ (match c.rate with | some x => x.to_args | none => [])

/-- `Controls::from_str` from `src/netem.rs`: an empty record when the
prefix is absent, otherwise each sub-parser's result demoted to an option. -/
def Controls.from_str (s : String) : Except String Controls :=
  if ("qdisc netem".toList).isPrefixOf s.toList then
    .ok ⟨(Limit.from_str s).toOption, (Delay.from_str s).toOption, (Loss.from_str s).toOption,
         (Corrupt.from_str s).toOption, (Duplicate.from_str s).toOption,
         (Reorder.from_str s).toOption, (Rate.from_str s).toOption⟩
  else .ok Controls.default

/-- `^qdisc\s.*:\sdev\s(?P<interface>.*)\sroot` applied to one line
(anchored at the start). -/
def interfaceAt (s : List Char) : Option String := do
  let s1 ← lit ("qdisc".toList) s
  let s2 ← one isWS s1
  let (_, r) ← dotStarCap (fun t => do
      let t1 ← lit (":".toList) t
      let t2 ← one isWS t1
      let t3 ← lit ("dev".toList) t2
      let t4 ← one isWS t3
      let (name, _) ← dotStarCap (fun u => do
          let u1 ← one isWS u
          let _ ← lit ("root".toList) u1
          pure ()) t4
      pure (String.mk name)) s2
  pure r

/-- Split a character buffer at newlines. -/
def splitLines : List Char → List (List Char)
  | [] => [[]]
  | '\n' :: r => [] :: splitLines r
  | c :: r =>
      match splitLines r with
      | l :: ls => (c :: l) :: ls
      | [] => [[c]]

/-- Drop a trailing carriage return, as `str::lines` does per line. -/
def stripCR (l : List Char) : List Char :=
  match l.getLast? with
  | some '\r' => l.dropLast
  | _ => l

/-- `str::lines`: split on newlines, dropping the trailing empty chunk and a
trailing carriage return per line. -/
def rustLines (s : String) : List (List Char) :=
  (match (splitLines s.toList).getLast? with
   | some [] => (splitLines s.toList).dropLast
   | _ => splitLines s.toList).map stripCR

/-- `output_to_interfaces` from `src/netem.rs`. -/
def output_to_interfaces (s : String) : List String :=
  (rustLines s).filterMap interfaceAt

/-- The `NetEm` operation enum of `src/netem.rs`. -/
inductive NetEm
  | set (interface : String) (controls : Controls)
  | showOp (interface : String)
  | list
  | reset (interface : String)

/-- `NetEm::to_args` from `src/netem.rs`. -/
def NetEm.to_args : NetEm → List String
  | .set interface controls =>
      ["qdisc", "replace", "dev", interface, "root", "netem"] ++ controls.to_args
  | .showOp interface => ["qdisc", "show", "dev", interface]
  | .reset interface => ["qdisc", "del", "dev", interface, "root", "netem"]
  | .list => ["qdisc", "show"]

/-- The `Output` result enum of `src/netem.rs`. -/
inductive Output
  | ok
  | controls (interface : String) (controls : Controls)
  | interfaces (list : List String)
  | error (description : String) (server : Bool)
deriving DecidableEq

/-- One collected `std::process::Output`: an optional exit code (none when
terminated by a signal) and the text-decoding outcomes of the two streams. -/
structure ProcOutput where
  code : Option Int
  stdout : Except String String
  stderr : Except String String

/-- The outcome of spawning the external `tc` command. -/
inductive SpawnResult
  | failed (e : String)
  | spawned (out : ProcOutput)

/-- The description built by `NetEm::execute` for a nonzero exit code. -/
def exitDesc (code : Int) (stderr : Except String String) : String :=
  match stderr with
  | .ok s => "Exit with status code: " ++ toString code ++ ", stderr: " ++ s
  | .error _ => "Exit with status code: " ++ toString code

/-- `NetEm::execute` from `src/netem.rs`, given the result of the spawn: the
classification of the process outcome into an `Output`. -/
def NetEm.executeOut (ne : NetEm) (r : SpawnResult) : Output :=
  match r with
  | .failed e => .error ("Command error: " ++ e) true
  | .spawned out =>
      match out.code with
      | some code =>
          if code = 0 then
            match out.stdout with
            | .ok stdout =>
                match ne with
                | .showOp interface =>
                    match Controls.from_str stdout with
                    | .ok controls => .controls interface controls
                    | .error e => .error ("Parse output to contorls error: " ++ e) true
                | .list => .interfaces (output_to_interfaces stdout)
                | _ => .ok
            | .error e => .error ("Process output decode(utf8) error: " ++ e) true
          else .error (exitDesc code out.stderr) true
      | none => .error "Process killed by signal" true

/-- `NetEm::execute` with its external-command invocations recorded: the
command is always spawned, with the serialized argument list. -/
def NetEm.executeT (ne : NetEm) (spawn : List String → SpawnResult) :
    Output × List (List String) :=
  (NetEm.executeOut ne (spawn ne.to_args), [ne.to_args])

/-- The spec-side serialization order (section 4.1): limit, delay, loss,
duplicate, reorder (only with delay present), corrupt, rate. -/
def optTokens {α : Type} (f : α → List String) : Option α → List String
  | some x => f x
  | none => []

/-- Modelled from the spec: `to_argument_sequence` field order as stated in
the specification, for comparison with `Controls.to_args`. -/
def Controls.specArgsSeq (c : Controls) : List String :=
  optTokens Limit.to_args c.limit ++ optTokens Delay.to_args c.delay
    ++ optTokens Loss.to_args c.loss ++ optTokens Duplicate.to_args c.duplicate
    ++ (if c.delay.isSome then optTokens Reorder.to_args c.reorder else [])
    ++ optTokens Corrupt.to_args c.corrupt ++ optTokens Rate.to_args c.rate

/-- Helper: `Output` errors. -/
def isError : Output → Bool
  | .error _ _ => true
  | _ => false

end Taco.Netem

namespace Taco.Cmd

/-- `Delay` from `src/command.rs` (durations are integral milliseconds there). -/
structure Delay where
  duration : Nat
  jitter : Option Nat
  correlation : Option ℚ
deriving DecidableEq

def Delay.to_args (d : Delay) : List String :=
  ["delay", toString d.duration ++ "ms"]
    ++ (match d.jitter with | some j => [toString j ++ "ms"] | none => [])
    ++ (match d.correlation with | some c => [Netem.pctString c] | none => [])

structure Loss where
  prob : ℚ
  random : Option ℚ
deriving DecidableEq

def Loss.to_args (l : Loss) : List String :=
  ["loss", Netem.pctString l.prob]
    ++ (match l.random with | some c => [Netem.pctString c] | none => [])

structure Corrupt where
  prob : ℚ
  correlation : Option ℚ
deriving DecidableEq

def Corrupt.to_args (x : Corrupt) : List String :=
  ["corrupt", Netem.pctString x.prob]
    ++ (match x.correlation with | some c => [Netem.pctString c] | none => [])

structure Duplicate where
  prob : ℚ
  correlation : Option ℚ
deriving DecidableEq

def Duplicate.to_args (x : Duplicate) : List String :=
  ["duplicate", Netem.pctString x.prob]
    ++ (match x.correlation with | some c => [Netem.pctString c] | none => [])

structure Reorder where
  prob : ℚ
  correlation : Option ℚ
  gap : Option Nat
deriving DecidableEq

def Reorder.to_args (r : Reorder) : List String :=
  ["reorder", Netem.pctString r.prob]
    ++ (match r.correlation with | some c => [Netem.pctString c] | none => [])
    ++ (match r.gap with | some g => ["gap", toString g] | none => [])

/-- The `Controls` record of `src/command.rs`. -/
structure Controls where
  delay : Option Delay
  loss : Option Loss
  duplicate : Option Duplicate
  reorder : Option Reorder
  corrupt : Option Corrupt
deriving DecidableEq

/-- `Controls::is_valid` from `src/command.rs`: to use reordering, a delay
option must be specified. -/
def Controls.is_valid (c : Controls) : Bool := c.reorder.isNone || c.delay.isSome

/-- `Controls::to_args` from `src/command.rs` (reorder is NOT gated here;
only `get_args` validation protects it). -/
def Controls.to_args (c : Controls) : List String :=
  (match c.delay with | some x => x.to_args | none => [])
    ++ (match c.loss with | some x => x.to_args | none => [])
    ++ (match c.duplicate with | some x => x.to_args | none => [])
    ++ (match c.reorder with | some x => x.to_args | none => [])
    ++ (match c.corrupt with | some x => x.to_args | none => [])

/-- The `Tc` command enum of `src/command.rs`. -/
inductive Tc
  | control (interface : String) (controls : Controls)
  | showOp (interface : Option String)
  | reset (interface : String)

/-- `Tc::get_args` from `src/command.rs`: validation happens here, before any
process interaction. -/
def Tc.get_args : Tc → Except String (List String)
  | .control interface controls =>
      if controls.is_valid then
        .ok (["qdisc", "replace", "dev", interface, "root", "netem"] ++ controls.to_args)
      else .error "to use reordering, a delay option must be specified"
  | .showOp (some interface) => .ok ["qdisc", "show", "dev", interface]
  | .showOp none => .ok ["qdisc", "show"]
  | .reset interface => .ok ["qdisc", "del", "dev", interface, "root", "netem"]

structure Message where
  ok : Bool
  message : Option String
deriving DecidableEq

def Message.okM : Message := ⟨true, none⟩

def Message.errM (m : String) : Message := ⟨false, some m⟩

/-- `Tc::execute` from `src/command.rs`, given the spawn primitive; the second
component records the argument lists actually passed to the external command.
A `get_args` error propagates before any spawn. -/
def Tc.execute (tc : Tc) (spawn : List String → Except String (Option Int)) :
    Except String Message × List (List String) :=
  match tc.get_args with
  | .error e => (.error e, [])
  | .ok args =>
      match spawn args with
      | .error e => (.error e, [args])
      | .ok (some code) =>
          if code = 0 then (.ok Message.okM, [args])
          else (.ok (Message.errM ("Exit with status code: " ++ toString code)), [args])
      | .ok none => (.ok (Message.errM "Process killed by signal"), [args])

end Taco.Cmd

namespace Taco.Proto

/-- Result of one incremental token parse: the token and the rest, a request
for more bytes, or a malformed-input error.  This is the interface shape of
the external `httparse` crate (complete / `Partial` / error). -/
inductive PRes (α : Type)
  | done (a : α) (rest : List Char)
  | more
  | bad (e : String)

/-- Read characters of a class up to a stop character (consumed); running out
of input is "need more bytes", a disallowed character is an error. -/
def parseTok (stop : Char) (allowed : Char → Bool) : List Char → PRes (List Char)
  | [] => .more
  | c :: cs =>
      if c = stop then .done [] cs
      else if allowed c then
        match parseTok stop allowed cs with
        | .done t r => .done (c :: t) r
        | .more => .more
        | .bad e => .bad e
      else .bad "invalid character"

/-- Characters allowed in the request-line tokens. -/
def lineCh (c : Char) : Bool := !(c = '\r') && !(c = '\n')

/-- Characters `httparse` accepts in a header name (model: alphanumerics and
the two separators that occur in practice). -/
def isNameCh (c : Char) : Bool := c.isAlphanum || c = '-' || c = '_'

/-- Optional whitespace between the colon and the header value. -/
def isHSp (c : Char) : Bool := c = ' ' || c = '\t'

/-- Parse one header value up to CRLF (the CRLF is consumed). -/
def parseValueLine (s : List Char) : PRes (List Char) :=
  match parseTok '\r' (fun c => !(c = '\n')) s with
  | .more => .more
  | .bad e => .bad e
  | .done v r =>
      match r with
      | [] => .more
      | c :: r2 => if c = '\n' then .done v r2 else .bad "invalid header value"

/-- Parse one `name: value\r\n` header line. -/
def parseHeaderLine (s : List Char) : PRes (List Char × List Char) :=
  match parseTok ':' isNameCh s with
  | .more => .more
  | .bad e => .bad e
  | .done n r =>
      if n.isEmpty then .bad "invalid header name"
      else
        match parseValueLine (r.dropWhile isHSp) with
        | .more => .more
        | .bad e => .bad e
        | .done v r2 => .done (n, v) r2

/-- The header loop of the incremental parser.  `maxH` is the size of the
fixed header array the decoder supplies (16 slots); starting a header with no
slot left is the too-many-headers error, exactly as in `httparse`.  The fuel
only bounds recursion and is always sufficient at the use site. -/
def parseHeaders : Nat → Nat → Nat → List Char →
    PRes (List (List Char × List Char))
  | 0, _, _, _ => .bad "out of fuel"
  | fuel + 1, maxH, count, s =>
      if s.take 2 = ['\r', '\n'] then .done [] (s.drop 2)
      else if s.take 1 = ['\r'] then
        (if s.length = 1 then .more else .bad "invalid header name")
      else if s.isEmpty then .more
      else if maxH ≤ count then .bad "too many headers"
      else
        match parseHeaderLine s with
        | .more => .more
        | .bad e => .bad e
        | .done kv r =>
            match parseHeaders fuel maxH (count + 1) r with
            | .done hs r2 => .done (kv :: hs) r2
            | .more => .more
            | .bad e => .bad e

/-- A fully parsed request head: tokens, version, header list and the number
of bytes consumed through the blank line. -/
structure ParsedReq where
  method : List Char
  path : List Char
  version : Nat
  headers : List (List Char × List Char)
  amt : Nat
deriving DecidableEq

inductive PStatus
  | complete (r : ParsedReq)
  | incomplete
  | failed (e : String)
deriving DecidableEq

/-- `httparse` accepts exactly HTTP/1.0 and HTTP/1.1 in the version slot. -/
def versionOf (t : List Char) : Option Nat :=
  if t = ("HTTP/1.1".toList) then some 1
  else if t = ("HTTP/1.0".toList) then some 0
  else none

/-- The incremental request-head parser at the `httparse::Request::parse`
interface: complete with consumed count, incomplete, or error. -/
def parseReq (maxH : Nat) (s : List Char) : PStatus :=
  match parseTok ' ' lineCh s with
  | .more => .incomplete
  | .bad e => .failed e
  | .done m r1 =>
      if m.isEmpty then .failed "invalid token"
      else
        match parseTok ' ' lineCh r1 with
        | .more => .incomplete
        | .bad e => .failed e
        | .done p r2 =>
            if p.isEmpty then .failed "invalid token"
            else
              match parseTok '\r' (fun c => !(c = '\n')) r2 with
              | .more => .incomplete
              | .bad e => .failed e
              | .done vtok r3 =>
                  match r3 with
                  | [] => .incomplete
                  | c :: r4 =>
                      if c = '\n' then
                        match versionOf vtok with
                        | none => .failed "invalid HTTP version"
                        | some v =>
                            match parseHeaders (r4.length + 1) maxH 0 r4 with
                            | .more => .incomplete
                            | .bad e => .failed e
                            | .done hs r5 => .complete ⟨m, p, v, hs, s.length - r5.length⟩
                      else .failed "invalid newline"

/-- The decoded request value (`http::Request<String>`): header names are
normalised to lower case as the `http` crate does. -/
structure Req where
  method : String
  uri : String
  headers : List (String × String)
  body : String
deriving DecidableEq

/-- `HeaderValue::from_bytes` validation: tab or visible bytes, no DEL. -/
def headerValueOk (v : List Char) : Bool :=
  v.all (fun c => c = '\t' || (' ' ≤ c && !(c = '\x7f')))

def headerNameOk (n : List Char) : Bool := !n.isEmpty && n.all isNameCh

/-- Building the `http` header map: validate each raw header and lower-case
its name; the first invalid header aborts the decode with an error. -/
def buildHeaders : List (List Char × List Char) → Except String (List (String × String))
  | [] => .ok []
  | (n, v) :: t =>
      if headerNameOk n && headerValueOk v then
        match buildHeaders t with
        | .ok hs => .ok ((String.mk (n.map Char.toLower), String.mk v) :: hs)
        | .error e => .error e
      else .error "invalid header"

/-- `HeaderMap::get(CONTENT_LENGTH)`: first header named `content-length`. -/
def findCL : List (String × String) → Option String
  | [] => none
  | (k, v) :: t => if k = "content-length" then some v else findCL t

/-- `length.to_str()?.parse::<usize>()?`. -/
def contentLen (v : String) : Option Nat := parseNatAll v.toList

/-- `<Http as Decoder>::decode` from `src/proto.rs` on the accumulated byte
buffer.  Returns the optional decoded request together with the buffer as the
codec leaves it (`BytesMut` after the `split_to` calls).  Note the source
order: the header block is split off (`split_to(amt)`) before the
content-length sufficiency check. -/
def decode (src : List Char) : Except String (Option Req × List Char) :=
  match parseReq 16 src with
  | .failed e => .error ("failed to parse http request: " ++ e)
  | .incomplete => .ok (none, src)
  | .complete r =>
      if r.version ≠ 1 then .error "only HTTP/1.1 accepted"
      else
        let rest := src.drop r.amt
        match buildHeaders r.headers with
        | .error e => .error e
        | .ok hs =>
            match findCL hs with
            | some v =>
                match contentLen v with
                | none => .error "invalid content-length"
                | some n =>
                    if rest.length < n then .ok (none, rest)
                    else
                      .ok (some ⟨String.mk r.method, String.mk r.path, hs,
                                 String.mk (rest.take n)⟩, rest.drop n)
            | none => .ok (some ⟨String.mk r.method, String.mk r.path, hs, ""⟩, rest)

/-- One step of the per-connection loop of `process` (`src/main.rs`): a
decode error terminates the connection, no-value waits for more bytes, a
request is dispatched. -/
inductive ConnStep
  | terminated (e : String)
  | waiting
  | responded (r : Req)
deriving DecidableEq

def connStep (d : Except String (Option Req × List Char)) : ConnStep :=
  match d with
  | .error e => .terminated e
  | .ok (none, _) => .waiting
  | .ok (some r, _) => .responded r

/-- Renderer for a wire request, used to quantify over well-formed requests:
request line, header block, blank line, body. -/
def renderHeaders : List (String × String) → List Char
  | [] => []
  | kv :: t => kv.1.toList ++ ':' :: ' ' :: (kv.2.toList ++ '\r' :: '\n' :: renderHeaders t)

def renderReq (m p vs : String) (hs : List (String × String)) (b : String) : List Char :=
  m.toList ++ ' ' :: (p.toList ++ ' ' :: (vs.toList ++ '\r' :: '\n' ::
    (renderHeaders hs ++ '\r' :: '\n' :: b.toList)))

/-- What the parser records for one rendered header. -/
def parsedHdr (kv : String × String) : List Char × List Char :=
  (kv.1.toList, kv.2.toList.dropWhile isHSp)

/-- Well-formedness of a request-line token. -/
def tokOkP (m : String) : Prop :=
  m.toList ≠ [] ∧ ∀ c ∈ m.toList, c ≠ ' ' ∧ c ≠ '\r' ∧ c ≠ '\n'

/-- Well-formedness of a version token (no line breaks inside it). -/
def versionOkP (v : String) : Prop := ∀ c ∈ v.toList, c ≠ '\r' ∧ c ≠ '\n'

/-- Well-formedness of one header for the renderer. -/
def hdrOkP (kv : String × String) : Prop :=
  kv.1.toList ≠ [] ∧ (∀ c ∈ kv.1.toList, isNameCh c = true) ∧
    ∀ c ∈ kv.2.toList, c ≠ '\r' ∧ c ≠ '\n'

instance (m : String) : Decidable (tokOkP m) := by
  unfold tokOkP
  exact inferInstance

instance (v : String) : Decidable (versionOkP v) := by
  unfold versionOkP
  exact inferInstance

instance (kv : String × String) : Decidable (hdrOkP kv) := by
  unfold hdrOkP
  exact inferInstance

end Taco.Proto

namespace Taco

instance {ε α : Type} [DecidableEq ε] [DecidableEq α] : DecidableEq (Except ε α) := fun a b =>
  match a, b with
  | .ok x, .ok y =>
      if h : x = y then .isTrue (by rw [h]) else .isFalse (fun hc => h (Except.ok.inj hc))
  | .error x, .error y =>
      if h : x = y then .isTrue (by rw [h]) else .isFalse (fun hc => h (Except.error.inj hc))
  | .ok _, .error _ => .isFalse (fun hc => Except.noConfusion hc)
  | .error _, .ok _ => .isFalse (fun hc => Except.noConfusion hc)

/-- `Controls::from_str` of `src/netem.rs` never returns an error: every
sub-parser result is converted to an option and the prefix miss returns the
empty record. -/
theorem Netem.from_str_isOk (s : String) : ∃ c, Netem.Controls.from_str s = .ok c := by
  unfold Netem.Controls.from_str
  by_cases h : ("qdisc netem".toList).isPrefixOf s.toList = true
  · rw [if_pos h]; exact ⟨_, rfl⟩
  · rw [if_neg h]; exact ⟨_, rfl⟩

/-- The per-unit multiplier of `Rate::from_str`. -/
def Netem.unitFactor : String → Nat
  | "Kbit" => 1000
  | "Mbit" => 1000000
  | "Gbit" => 1000000000
  | "Tbit" => 1000000000000
  | _ => 1

theorem Netem.checkedMul_getD (n k : Nat) :
    (Netem.checkedMul n k).getD u64Max = min (n * k) u64Max := by
  unfold Netem.checkedMul
  by_cases h : n * k ≤ u64Max
  · rw [if_pos h]; exact (Nat.min_eq_left h).symm
  · rw [if_neg h]; exact (Nat.min_eq_right (Nat.le_of_not_le h)).symm

theorem parseU64_le {t : List Char} {n : Nat} (h : parseU64 t = some n) : n ≤ u64Max := by
  unfold parseU64 at h
  rcases hm : parseNatAll t with _ | m
  · rw [hm] at h; simp [Option.bind] at h
  · rw [hm] at h
    simp only [Option.bind_eq_bind, Option.some_bind] at h
    by_cases hle : m ≤ u64Max
    · rw [if_pos hle] at h
      cases h; exact hle
    · rw [if_neg hle] at h; cases h

/-- A leftmost scan that succeeds does so at some start position. -/
theorem scan_some {α : Type} {k : List Char → Option α} :
    ∀ {s : List Char} {a : α}, scan k s = some a → ∃ t, k t = some a := by
  intro s
  induction s with
  | nil => intro a h; exact ⟨[], h⟩
  | cons c cs ih =>
      intro a h
      unfold scan at h
      rcases hk : k (c :: cs) with _ | b
      · rw [hk] at h; exact ih h
      · rw [hk] at h; cases h; exact ⟨c :: cs, hk⟩

/-- The unit capture group only ever produces the five recognised units. -/
theorem Netem.unitAt_mem {s u : List Char} (h : Netem.unitAt s = some u) :
    u = "bit".toList ∨ u = "Kbit".toList ∨ u = "Mbit".toList ∨
      u = "Gbit".toList ∨ u = "Tbit".toList := by
  unfold Netem.unitAt at h
  split at h <;>
    simp only [Option.map_eq_some'] at h <;> rcases h with ⟨_, _, h⟩ <;> subst h <;> simp

theorem Netem.rateAt_unit {s : List Char} {nt ut : List Char}
    (h : Netem.rateAt s = some (nt, ut)) :
    ut = "bit".toList ∨ ut = "Kbit".toList ∨ ut = "Mbit".toList ∨
      ut = "Gbit".toList ∨ ut = "Tbit".toList := by
  unfold Netem.rateAt at h
  simp only [Option.bind_eq_bind, Option.bind_eq_some, Option.pure_def,
    Option.some.injEq] at h
  rcases h with ⟨s1, _, s2, _, ⟨n0, s3⟩, _, u, hu, hp⟩
  cases hp
  exact Netem.unitAt_mem hu

/-- The known-good status-line fixture of `test_regex` in `src/netem.rs`. -/
def netemFixture : String :=
  "qdisc netem 8018: root refcnt 2 limit 1000 delay 10.0ms  2.0ms 50% loss 0.1% 11% duplicate 0.1% 12% reorder 10% 55% corrupt 0.3% 30% rate 10Mbit ecn  gap 5"

/-- Claim C4: parsing the fixture status line with `Controls::from_str` yields
limit 1000 packets; delay 10.0ms with jitter 2.0ms and correlation 50%; loss
0.1% with correlation 11% and ecn set; duplicate 0.1% with correlation 12%;
reorder 10% with correlation 55% and gap distance 5; corrupt 0.3% with
correlation 30%; and rate 10000000 bits per second. -/
theorem c4_fixture_roundtrip :
    Netem.Controls.from_str netemFixture =
      .ok ⟨some ⟨1000⟩,
           some ⟨10, some 2, some 50, none⟩,
           some ⟨1/10, some 11, true⟩,
           some ⟨3/10, some 30⟩,
           some ⟨1/10, some 12⟩,
           some ⟨10, some 55, some 5⟩,
           some ⟨10000000⟩⟩ := by
  simp only [show (1/10 : ℚ) = mkRat 1 10 from by norm_num [Rat.mkRat_eq_div],
    show (3/10 : ℚ) = mkRat 3 10 from by norm_num [Rat.mkRat_eq_div]]
  decide

/-- A seven-line `qdisc show` fixture: two netem root lines and five
noqueue/fq_codel root lines. -/
def listFixture : String :=
  "qdisc netem 8018: dev eth0 root refcnt 2 limit 1000 delay 10.0ms\nqdisc noqueue 0: dev lo root refcnt 2\nqdisc fq_codel 0: dev eth1 root refcnt 2 limit 10240p flows 1024\nqdisc noqueue 0: dev br-lan root refcnt 2\nqdisc netem 8019: dev wlan0 root refcnt 2 delay 1.0ms\nqdisc noqueue 0: dev eth0.1 root refcnt 2\nqdisc noqueue 0: dev eth0.2 root refcnt 2"

/-- Claim C3, counterexample: on the seven-line fixture with two netem root
lines (`eth0`, `wlan0`) and five noqueue/fq_codel lines, interface-list
extraction does NOT return just the two netem interface names — it returns
all seven, the loopback `lo` included, because the interface pattern never
inspects the discipline name. -/
theorem c3_counterexample :
    Netem.output_to_interfaces listFixture ≠ ["eth0", "wlan0"] ∧
      (Netem.output_to_interfaces listFixture).length = 7 ∧
      "lo" ∈ Netem.output_to_interfaces listFixture := by decide

/-- Claim C3, amended: interface-list extraction keeps every line of the form
`qdisc <anything>: dev <name> root ...`, whatever the queueing discipline; on
the seven-line fixture it returns all seven interface names, the
noqueue/fq_codel (and loopback) ones included. -/
theorem c3_amended :
    Netem.output_to_interfaces listFixture =
      ["eth0", "lo", "eth1", "br-lan", "wlan0", "eth0.1", "eth0.2"] := by decide

/-- Claim C7: `Controls::from_str` never hard-fails: it returns a value on
every input line, and when the line does not begin with the `qdisc netem`
prefix that value is the empty `Controls` with every field absent. -/
theorem c7_parse_total (s : String) :
    (∃ c, Netem.Controls.from_str s = .ok c) ∧
      (("qdisc netem".toList).isPrefixOf s.toList = false →
        Netem.Controls.from_str s = .ok ⟨none, none, none, none, none, none, none⟩) := by
  refine ⟨Netem.from_str_isOk s, fun h => ?_⟩
  unfold Netem.Controls.from_str
  rw [if_neg (by rw [h]; exact Bool.false_ne_true)]
  rfl

theorem c7_witness :
    Netem.Controls.from_str "hello" = .ok ⟨none, none, none, none, none, none, none⟩ :=
  (c7_parse_total "hello").2 (by decide)

/-- Claim C5: for every valid `Controls`, serialization is deterministic,
its field order is exactly limit, delay, loss, duplicate, reorder, corrupt,
rate (the spec-side `specArgsSeq`), and the reorder tokens are emitted iff
both reorder and delay are present. -/
theorem c5_to_args_order (c : Netem.Controls)
    (hv : c.reorder.isSome = true → c.delay.isSome = true) :
    Netem.Controls.to_args c = Netem.Controls.specArgsSeq c ∧
      (∀ c2 : Netem.Controls, c2 = c → Netem.Controls.to_args c2 = Netem.Controls.to_args c) ∧
      ((if c.delay.isSome then Netem.optTokens Netem.Reorder.to_args c.reorder else []) ≠ []
        ↔ (c.reorder.isSome = true ∧ c.delay.isSome = true)) := by
  refine ⟨?_, fun c2 h => by rw [h], ?_⟩
  · cases c with
    | mk l d lo co du re ra =>
        cases l <;> cases d <;> cases lo <;> cases co <;> cases du <;> cases re <;> cases ra <;> rfl
  · rcases hd : c.delay with _ | d <;> rcases hr : c.reorder with _ | r <;>
      simp [Netem.optTokens, Netem.Reorder.to_args]

theorem c5_witness :
    Netem.Controls.to_args
        ⟨none, some ⟨10, none, none, none⟩, none, none, none, some ⟨1, none, none⟩, none⟩ =
      Netem.Controls.specArgsSeq
        ⟨none, some ⟨10, none, none, none⟩, none, none, none, some ⟨1, none, none⟩, none⟩ :=
  (c5_to_args_order
    ⟨none, some ⟨10, none, none, none⟩, none, none, none, some ⟨1, none, none⟩, none⟩
    (fun _ => rfl)).1

/-- Claim C9: whenever the rate pattern matches a status line and the number
capture parses as a 64-bit integer, `Rate::from_str` multiplies the number by
the unit factor with exact unsigned 64-bit arithmetic, saturating to the
maximum value on overflow; the captured unit is always one of the five
recognised ones, and any unrecognised unit would be a parse error in the
unit dispatch. -/
theorem c9_rate_saturation (s : String) (ntok utok : List Char) (n : Nat)
    (hm : Netem.rateMatch s.toList = some (ntok, utok))
    (hn : parseU64 ntok = some n) :
    Netem.Rate.from_str s = .ok ⟨min (n * Netem.unitFactor (String.mk utok)) u64Max⟩ ∧
      (String.mk utok = "bit" ∨ String.mk utok = "Kbit" ∨ String.mk utok = "Mbit" ∨
        String.mk utok = "Gbit" ∨ String.mk utok = "Tbit") ∧
      (∀ u : String, u ≠ "bit" → u ≠ "Kbit" → u ≠ "Mbit" → u ≠ "Gbit" → u ≠ "Tbit" →
        ∃ e, Netem.Rate.applyUnit n u = .error e) := by
  have hle : n ≤ u64Max := parseU64_le hn
  obtain ⟨t, ht⟩ := scan_some hm
  have hmem := Netem.rateAt_unit ht
  have hmem' : String.mk utok = "bit" ∨ String.mk utok = "Kbit" ∨ String.mk utok = "Mbit" ∨
      String.mk utok = "Gbit" ∨ String.mk utok = "Tbit" := by
    rcases hmem with h | h | h | h | h <;> rw [h] <;> simp
  refine ⟨?_, hmem', ?_⟩
  · unfold Netem.Rate.from_str
    rw [show Netem.rateMatch s.toList = some (ntok, utok) from hm]
    simp only [hn]
    rcases hmem' with h | h | h | h | h <;> rw [h] <;>
      simp [Netem.Rate.applyUnit, Netem.unitFactor, Netem.checkedMul_getD,
        Nat.mul_one, Nat.min_eq_left hle]
  · intro u h1 h2 h3 h4 h5
    unfold Netem.Rate.applyUnit
    split
    · exact absurd rfl h1
    · exact absurd rfl h2
    · exact absurd rfl h3
    · exact absurd rfl h4
    · exact absurd rfl h5
    · exact ⟨_, rfl⟩

theorem c9_witness :
    Netem.Rate.from_str "rate 99999999999Tbit" = .ok ⟨18446744073709551615⟩ := by
  have h := (c9_rate_saturation "rate 99999999999Tbit" ("99999999999".toList)
    ("Tbit".toList) 99999999999 (by decide) (by decide)).1
  have e : min (99999999999 * Netem.unitFactor (String.mk ("Tbit".toList))) u64Max =
      18446744073709551615 := by decide
  rw [e] at h
  exact h

/-- Claim C1, counterexample: the `netem.rs` executor performs no validation,
so for a `Controls` value with reorder present and delay absent a `Set`
operation DOES invoke the external control-plane command (here with a spawn
oracle that records the invocation); the claim that the request is rejected
client-side before any process is spawned fails for this executor. -/
theorem c1_counterexample :
    (Netem.NetEm.executeT
        (.set "eth0" ⟨none, none, none, none, none, some ⟨10, none, none⟩, none⟩)
        (fun _ => .failed "tc unavailable")).2 =
      [["qdisc", "replace", "dev", "eth0", "root", "netem"]] ∧
      (Netem.NetEm.executeT
        (.set "eth0" ⟨none, none, none, none, none, some ⟨10, none, none⟩, none⟩)
        (fun _ => .failed "tc unavailable")).2 ≠ [] := by decide

/-- Claim C1, amended: for every `Controls` with reorder present and delay
absent, the `command.rs` pipeline behaves as claimed — `is_valid` is false,
`get_args` fails, and `Tc::execute` returns that error without consulting the
spawn primitive; the `netem.rs` executor, by contrast, has no validation and
always spawns the external command, but its serializer drops the reorder
tokens (serialization equals that of the same value with reorder removed). -/
theorem c1_amended :
    (∀ (c : Cmd.Controls), c.reorder.isSome = true → c.delay = none →
      Cmd.Controls.is_valid c = false ∧
        (∀ i, Cmd.Tc.get_args (.control i c) =
          .error "to use reordering, a delay option must be specified") ∧
        (∀ i spawn, Cmd.Tc.execute (.control i c) spawn =
          (.error "to use reordering, a delay option must be specified", []))) ∧
    (∀ (c : Netem.Controls), c.reorder.isSome = true → c.delay = none →
      ∀ i spawn, (Netem.NetEm.executeT (.set i c) spawn).2 = [Netem.NetEm.to_args (.set i c)] ∧
        (Netem.NetEm.executeT (.set i c) spawn).2 ≠ [] ∧
        Netem.Controls.to_args c = Netem.Controls.to_args
          ⟨c.limit, c.delay, c.loss, c.corrupt, c.duplicate, none, c.rate⟩) := by
  constructor
  · intro c hr hd
    have hv : Cmd.Controls.is_valid c = false := by
      unfold Cmd.Controls.is_valid
      rw [hd]
      rcases hro : c.reorder with _ | r
      · rw [hro] at hr; cases hr
      · rfl
    refine ⟨hv, fun i => ?_, fun i spawn => ?_⟩
    · simp [Cmd.Tc.get_args, hv]
    · simp [Cmd.Tc.execute, Cmd.Tc.get_args, hv]
  · intro c hr hd i spawn
    refine ⟨rfl, by simp [Netem.NetEm.executeT], ?_⟩
    unfold Netem.Controls.to_args
    rw [hd]
    rfl

theorem c1_witness :
    Cmd.Controls.is_valid ⟨none, none, none, some ⟨10, none, none⟩, none⟩ = false :=
  (c1_amended.1 ⟨none, none, none, some ⟨10, none, none⟩, none⟩ rfl rfl).1

/-- Claim C6, counterexample: for a `Reset` operation whose external command
exits with code 0 but whose standard output is not decodable as text, the
executor returns `Error{server:true}`, not the plain `Ok` the claim requires
for every exit-code-0 `Set`/`Reset`. -/
theorem c6_counterexample :
    Netem.NetEm.executeOut (.reset "eth0")
        (.spawned ⟨some 0, .error "invalid utf-8 sequence", .ok ""⟩) =
      .error "Process output decode(utf8) error: invalid utf-8 sequence" true ∧
      Netem.NetEm.executeOut (.reset "eth0")
        (.spawned ⟨some 0, .error "invalid utf-8 sequence", .ok ""⟩) ≠ .ok := by
  constructor
  · rfl
  · decide

/-- Claim C6, amended: the executor returns `Error` with `server=true`
exactly when the spawn fails, the command is terminated by a signal, the
exit code is nonzero (description holding the exit code and, when decodable,
the stderr text), or — for every operation kind, not only `Show` — the exit
code is 0 but stdout is not decodable as text; with exit code 0 and decodable
stdout the result is never an error, and for `Set`/`Reset` it is plain `Ok`.
(The `Show` status-parse-failure arm exists but cannot fire, since `Controls`
parsing always returns a value.) -/
theorem c6_amended (ne : Netem.NetEm) (r : Netem.SpawnResult) :
    (∀ e, r = .failed e →
      Netem.NetEm.executeOut ne r = .error ("Command error: " ++ e) true) ∧
    (∀ out, r = .spawned out → out.code = none →
      Netem.NetEm.executeOut ne r = .error "Process killed by signal" true) ∧
    (∀ out code, r = .spawned out → out.code = some code → code ≠ 0 →
      Netem.NetEm.executeOut ne r = .error (Netem.exitDesc code out.stderr) true) ∧
    (∀ out e, r = .spawned out → out.code = some 0 → out.stdout = .error e →
      Netem.NetEm.executeOut ne r = .error ("Process output decode(utf8) error: " ++ e) true) ∧
    (∀ out s, r = .spawned out → out.code = some 0 → out.stdout = .ok s →
      Netem.isError (Netem.NetEm.executeOut ne r) = false ∧
        (∀ i c, ne = .set i c → Netem.NetEm.executeOut ne r = .ok) ∧
        (∀ i, ne = .reset i → Netem.NetEm.executeOut ne r = .ok)) ∧
    (∀ d b, Netem.NetEm.executeOut ne r = .error d b → b = true) := by
  refine ⟨?_, ?_, ?_, ?_, ?_, ?_⟩
  · intro e he
    subst he
    rfl
  · intro out ho hc
    subst ho
    simp only [Netem.NetEm.executeOut, hc]
  · intro out code ho hc hnz
    subst ho
    simp only [Netem.NetEm.executeOut, hc]
    rw [if_neg hnz]
  · intro out e ho hc hs
    subst ho
    simp only [Netem.NetEm.executeOut, hc, hs]
    rw [if_pos trivial]
  · intro out s ho hc hs
    subst ho
    have hred : Netem.NetEm.executeOut ne (.spawned out) =
        (match ne with
         | .showOp interface =>
             match Netem.Controls.from_str s with
             | .ok controls => .controls interface controls
             | .error e => .error ("Parse output to contorls error: " ++ e) true
         | .list => .interfaces (Netem.output_to_interfaces s)
         | _ => .ok) := by
      simp only [Netem.NetEm.executeOut, hc, hs]
      rw [if_pos trivial]
    refine ⟨?_, ?_, ?_⟩
    · rw [hred]
      obtain ⟨cv, hcv⟩ := Netem.from_str_isOk s
      cases ne <;> simp [Netem.isError, hcv]
    · intro i c hne
      subst hne
      rw [hred]
    · intro i hne
      subst hne
      rw [hred]
  · intro d b h
    rcases r with e | out
    · cases h
      rfl
    · simp only [Netem.NetEm.executeOut] at h
      rcases hc : out.code with _ | code
      · simp only [hc] at h
        cases h
        rfl
      · simp only [hc] at h
        by_cases hz : code = 0
        · rw [if_pos hz] at h
          rcases hs : out.stdout with e' | s'
          · simp only [hs] at h
            cases h
            rfl
          · simp only [hs] at h
            obtain ⟨cv, hcv⟩ := Netem.from_str_isOk s'
            cases ne <;> simp only [hcv] at h <;> cases h
        · rw [if_neg hz] at h
          cases h
          rfl

theorem c6_witness :
    Netem.NetEm.executeOut .list (.failed "boom") = .error "Command error: boom" true :=
  (c6_amended .list (.failed "boom")).1 "boom" rfl

/-- A buffer holding a complete header block that declares five body bytes,
with only two of them buffered. -/
def c2buf : List Char := ("POST /api HTTP/1.1\r\nContent-Length: 5\r\n\r\nab").toList

/-- Claim C2, evaluated at the failing input: the decoder does return the
no-value outcome (not an error) when the declared `Content-Length` exceeds
the buffered bytes — but it has already removed the 41-byte header block from
the buffer (`split_to(amt)` runs before the length check), leaving only the
two body bytes.  When the remaining three body bytes arrive, the accumulated
buffer is just `abcde`, which never decodes to a request: the decoder keeps
reporting no-value and the request is lost, contradicting the claimed
resume-and-consume behaviour. -/
theorem toList_inj {s t : String} (h : s.toList = t.toList) : s = t := by
  cases s
  cases t
  exact congrArg String.mk h

namespace Proto

theorem parseTok_spec (stop : Char) (allowed : Char → Bool) (t r : List Char)
    (h : ∀ c ∈ t, allowed c = true ∧ c ≠ stop) :
    parseTok stop allowed (t ++ stop :: r) = .done t r := by
  induction t with
  | nil => simp [parseTok]
  | cons c cs ih =>
      have hc := h c (List.mem_cons_self c cs)
      have ih' := ih (fun d hd => h d (List.mem_cons_of_mem c hd))
      show parseTok stop allowed (c :: (cs ++ stop :: r)) = .done (c :: cs) r
      unfold parseTok
      rw [if_neg hc.2, if_pos hc.1, ih']

theorem dropWhile_append_stop (p : Char → Bool) (v z : List Char) (c : Char)
    (hc : p c = false) :
    (v ++ c :: z).dropWhile p = v.dropWhile p ++ c :: z := by
  induction v with
  | nil => simp [List.dropWhile_cons, hc]
  | cons a as ih =>
      by_cases ha : p a = true
      · simp [List.dropWhile_cons, ha, ih]
      · simp [List.dropWhile_cons, ha]

theorem parseValueLine_spec (v rest : List Char) (hv : ∀ c ∈ v, c ≠ '\r' ∧ c ≠ '\n') :
    parseValueLine (v ++ '\r' :: '\n' :: rest) = .done v rest := by
  unfold parseValueLine
  rw [parseTok_spec '\r' _ v ('\n' :: rest)
    (fun c hc => ⟨by simp [(hv c hc).2], (hv c hc).1⟩)]
  simp

theorem parseHeaderLine_spec (k v rest : List Char)
    (hk : k ≠ []) (hkc : ∀ c ∈ k, isNameCh c = true)
    (hvc : ∀ c ∈ v, c ≠ '\r' ∧ c ≠ '\n') :
    parseHeaderLine (k ++ ':' :: ' ' :: (v ++ '\r' :: '\n' :: rest)) =
      .done (k, v.dropWhile isHSp) rest := by
  have hcol : ∀ c ∈ k, isNameCh c = true ∧ c ≠ ':' := by
    intro c hc
    refine ⟨hkc c hc, fun he => ?_⟩
    subst he
    exact absurd (hkc _ hc) (by decide)
  unfold parseHeaderLine
  rw [parseTok_spec ':' isNameCh k _ hcol]
  rcases k with _ | ⟨a, as⟩
  · exact absurd rfl hk
  simp only [List.isEmpty_cons, Bool.false_eq_true, if_false]
  have hdw : (' ' :: (v ++ '\r' :: '\n' :: rest)).dropWhile isHSp =
      v.dropWhile isHSp ++ '\r' :: '\n' :: rest := by
    rw [List.dropWhile_cons_of_pos (by decide)]
    exact dropWhile_append_stop isHSp v ('\n' :: rest) '\r' (by decide)
  rw [hdw, parseValueLine_spec _ rest
    (fun c hc => hvc c (List.dropWhile_subset isHSp hc))]

theorem renderHeaders_len (hs : List (String × String)) :
    hs.length ≤ (renderHeaders hs).length := by
  induction hs with
  | nil => simp [renderHeaders]
  | cons kv t ih =>
      simp only [renderHeaders, List.length_append, List.length_cons]
      omega

theorem parseHeaders_render (hs : List (String × String)) :
    ∀ (fuel count : Nat) (rest : List Char), (∀ kv ∈ hs, hdrOkP kv) →
      count + hs.length ≤ 16 → hs.length < fuel →
      parseHeaders fuel 16 count (renderHeaders hs ++ '\r' :: '\n' :: rest) =
        .done (hs.map parsedHdr) rest := by
  induction hs with
  | nil =>
      intro fuel count rest _ _ hf
      rcases fuel with _ | f
      · omega
      · simp [renderHeaders, parseHeaders]
  | cons kv t ih =>
      intro fuel count rest hwf hcount hf
      rcases fuel with _ | f
      · omega
      obtain ⟨hk, hkc, hvc⟩ := hwf kv (List.mem_cons_self kv t)
      have hassoc : renderHeaders (kv :: t) ++ '\r' :: '\n' :: rest =
          kv.1.toList ++ ':' :: ' ' ::
            (kv.2.toList ++ '\r' :: '\n' :: (renderHeaders t ++ '\r' :: '\n' :: rest)) := by
        simp [renderHeaders, List.append_assoc]
      rw [hassoc]
      rcases hk1 : kv.1.toList with _ | ⟨a, as⟩
      · exact absurd hk1 hk
      have ha : a ≠ '\r' := by
        intro he
        subst he
        have := hkc '\r' (by rw [hk1]; exact List.mem_cons_self _ _)
        exact absurd this (by decide)
      show parseHeaders (f + 1) 16 count
        (a :: (as ++ ':' :: ' ' ::
          (kv.2.toList ++ '\r' :: '\n' :: (renderHeaders t ++ '\r' :: '\n' :: rest)))) = _
      have hcount' : count + (t.length + 1) ≤ 16 := by simpa using hcount
      unfold parseHeaders
      rw [if_neg (by simp [List.take_succ_cons, ha]),
          if_neg (by simp [List.take_succ_cons, ha]),
          if_neg (by simp),
          if_neg (by omega)]
      have hline := parseHeaderLine_spec (a :: as) kv.2.toList
        (renderHeaders t ++ '\r' :: '\n' :: rest)
        (by simp) (by rw [← hk1]; exact hkc) hvc
      rw [show (a :: (as ++ ':' :: ' ' ::
          (kv.2.toList ++ '\r' :: '\n' :: (renderHeaders t ++ '\r' :: '\n' :: rest)))) =
          ((a :: as) ++ ':' :: ' ' ::
            (kv.2.toList ++ '\r' :: '\n' :: (renderHeaders t ++ '\r' :: '\n' :: rest)))
        from rfl, hline]
      dsimp only
      rw [ih f (count + 1) rest (fun kv2 h2 => hwf kv2 (List.mem_cons_of_mem kv h2))
        (by omega) (by simp at hf ⊢; omega)]
      simp [parsedHdr, ← hk1, String.toList]

theorem parseHeaders_overflow (hs : List (String × String)) :
    ∀ (fuel count : Nat) (rest : List Char), (∀ kv ∈ hs, hdrOkP kv) →
      count ≤ 16 → 16 < count + hs.length → hs.length < fuel →
      parseHeaders fuel 16 count (renderHeaders hs ++ '\r' :: '\n' :: rest) =
        .bad "too many headers" := by
  induction hs with
  | nil =>
      intro fuel count rest _ hc hlt _
      simp at hlt
      omega
  | cons kv t ih =>
      intro fuel count rest hwf hc hlt hf
      rcases fuel with _ | f
      · omega
      obtain ⟨hk, hkc, hvc⟩ := hwf kv (List.mem_cons_self kv t)
      have hassoc : renderHeaders (kv :: t) ++ '\r' :: '\n' :: rest =
          kv.1.toList ++ ':' :: ' ' ::
            (kv.2.toList ++ '\r' :: '\n' :: (renderHeaders t ++ '\r' :: '\n' :: rest)) := by
        simp [renderHeaders, List.append_assoc]
      rw [hassoc]
      rcases hk1 : kv.1.toList with _ | ⟨a, as⟩
      · exact absurd hk1 hk
      have ha : a ≠ '\r' := by
        intro he
        subst he
        have := hkc '\r' (by rw [hk1]; exact List.mem_cons_self _ _)
        exact absurd this (by decide)
      show parseHeaders (f + 1) 16 count
        (a :: (as ++ ':' :: ' ' ::
          (kv.2.toList ++ '\r' :: '\n' :: (renderHeaders t ++ '\r' :: '\n' :: rest)))) = _
      unfold parseHeaders
      rw [if_neg (by simp [List.take_succ_cons, ha]),
          if_neg (by simp [List.take_succ_cons, ha]),
          if_neg (by simp)]
      by_cases hcnt : 16 ≤ count
      · rw [if_pos hcnt]
      · rw [if_neg hcnt]
        have hline := parseHeaderLine_spec (a :: as) kv.2.toList
          (renderHeaders t ++ '\r' :: '\n' :: rest)
          (by simp) (by rw [← hk1]; exact hkc) hvc
        rw [show (a :: (as ++ ':' :: ' ' ::
            (kv.2.toList ++ '\r' :: '\n' :: (renderHeaders t ++ '\r' :: '\n' :: rest)))) =
            ((a :: as) ++ ':' :: ' ' ::
              (kv.2.toList ++ '\r' :: '\n' :: (renderHeaders t ++ '\r' :: '\n' :: rest)))
          from rfl, hline]
        dsimp only
        rw [ih f (count + 1) rest (fun kv2 h2 => hwf kv2 (List.mem_cons_of_mem kv h2))
          (by omega) (by simp at hlt ⊢; omega) (by simp at hf ⊢; omega)]

theorem parseReq_render (m p vs : String) (hs : List (String × String)) (b : String)
    (hm : tokOkP m) (hp : tokOkP p) (hv : versionOkP vs) :
    parseReq 16 (renderReq m p vs hs b) =
      (match versionOf vs.toList with
       | none => .failed "invalid HTTP version"
       | some v =>
          match parseHeaders ((renderHeaders hs ++ '\r' :: '\n' :: b.toList).length + 1) 16 0
              (renderHeaders hs ++ '\r' :: '\n' :: b.toList) with
          | .more => .incomplete
          | .bad e => .failed e
          | .done hdrs r5 =>
              .complete ⟨m.toList, p.toList, v, hdrs,
                (renderReq m p vs hs b).length - r5.length⟩) := by
  unfold parseReq
  rw [show renderReq m p vs hs b = m.toList ++ ' ' :: (p.toList ++ ' ' :: (vs.toList ++
      '\r' :: '\n' :: (renderHeaders hs ++ '\r' :: '\n' :: b.toList))) from rfl]
  rw [parseTok_spec ' ' lineCh m.toList _
    (fun c hc => ⟨by simp [lineCh, (hm.2 c hc).2.1, (hm.2 c hc).2.2], (hm.2 c hc).1⟩)]
  dsimp only
  rw [if_neg (by simp only [List.isEmpty_iff]; exact hm.1)]
  rw [parseTok_spec ' ' lineCh p.toList _
    (fun c hc => ⟨by simp [lineCh, (hp.2 c hc).2.1, (hp.2 c hc).2.2], (hp.2 c hc).1⟩)]
  dsimp only
  rw [if_neg (by simp only [List.isEmpty_iff]; exact hp.1)]
  rw [parseTok_spec '\r' _ vs.toList _
    (fun c hc => ⟨by simp [(hv c hc).2], (hv c hc).1⟩)]
  dsimp only
  rw [if_pos rfl]

end Proto

theorem renderTail_fuel (hs : List (String × String)) (b : String) :
    hs.length < (Proto.renderHeaders hs ++ '\r' :: '\n' :: b.toList).length + 1 := by
  have h := Proto.renderHeaders_len hs
  simp only [List.length_append, List.length_cons]
  omega

/-- Claim C8: for every rendered request whose request line declares a
protocol version other than `HTTP/1.1`, the decoder returns a fatal error
(never the no-value outcome), and the connection loop tears the connection
down on that error. -/
theorem c8_version_reject (m p vs : String) (hs : List (String × String)) (b : String)
    (hm : Proto.tokOkP m) (hp : Proto.tokOkP p) (hv : Proto.versionOkP vs)
    (hne : vs ≠ "HTTP/1.1") (hh : ∀ kv ∈ hs, Proto.hdrOkP kv) (hle : hs.length ≤ 16) :
    ∃ e, Proto.decode (Proto.renderReq m p vs hs b) = .error e ∧
      Proto.connStep (Proto.decode (Proto.renderReq m p vs hs b)) = .terminated e := by
  have hpr := Proto.parseReq_render m p vs hs b hm hp hv
  by_cases h0 : vs = "HTTP/1.0"
  · subst h0
    have hdone := Proto.parseHeaders_render hs _ 0 b.toList hh (by omega)
      (renderTail_fuel hs b)
    have hd : Proto.decode (Proto.renderReq m p "HTTP/1.0" hs b) =
        .error "only HTTP/1.1 accepted" := by
      unfold Proto.decode
      rw [hpr, show Proto.versionOf ("HTTP/1.0".toList) = some 0 from by decide]
      dsimp only
      rw [hdone]
      rfl
    exact ⟨_, hd, by rw [hd]; rfl⟩
  · have hvnone : Proto.versionOf vs.toList = none := by
      unfold Proto.versionOf
      rw [if_neg (fun hq => hne (toList_inj hq)), if_neg (fun hq => h0 (toList_inj hq))]
    have hd : Proto.decode (Proto.renderReq m p vs hs b) =
        .error "failed to parse http request: invalid HTTP version" := by
      unfold Proto.decode
      rw [hpr, hvnone]
      rfl
    exact ⟨_, hd, by rw [hd]; rfl⟩

theorem c8_witness :
    ∃ e, Proto.decode (Proto.renderReq "GET" "/" "HTTP/1.0" [] "") = .error e ∧
      Proto.connStep (Proto.decode (Proto.renderReq "GET" "/" "HTTP/1.0" [] "")) =
        .terminated e :=
  c8_version_reject "GET" "/" "HTTP/1.0" [] "" (by decide) (by decide) (by decide)
    (by decide) (fun kv hkv => absurd hkv (List.not_mem_nil kv)) (by decide)

/-- Claim C10: a rendered request with more than 16 headers makes the decoder
return a fatal decode error (never the no-value outcome), because the header
array handed to the incremental parser has 16 slots; a request with at most
16 headers is within the parser's capacity — it parses to completion with
all its headers. -/
theorem c10_header_capacity (m p : String) (hs : List (String × String)) (b : String)
    (hm : Proto.tokOkP m) (hp : Proto.tokOkP p) (hh : ∀ kv ∈ hs, Proto.hdrOkP kv) :
    (16 < hs.length →
      Proto.decode (Proto.renderReq m p "HTTP/1.1" hs b) =
        .error "failed to parse http request: too many headers") ∧
    (hs.length ≤ 16 →
      ∃ r, Proto.parseReq 16 (Proto.renderReq m p "HTTP/1.1" hs b) = .complete r ∧
        r.headers = hs.map Proto.parsedHdr ∧ r.headers.length = hs.length ∧
        r.version = 1) := by
  have hpr := Proto.parseReq_render m p "HTTP/1.1" hs b hm hp (by decide)
  constructor
  · intro hgt
    have hov := Proto.parseHeaders_overflow hs _ 0 b.toList hh (by omega) (by omega)
      (renderTail_fuel hs b)
    unfold Proto.decode
    rw [hpr, show Proto.versionOf ("HTTP/1.1".toList) = some 1 from by decide]
    dsimp only
    rw [hov]
    rfl
  · intro hle
    have hdone := Proto.parseHeaders_render hs _ 0 b.toList hh (by omega)
      (renderTail_fuel hs b)
    refine ⟨⟨m.toList, p.toList, 1, hs.map Proto.parsedHdr,
      (Proto.renderReq m p "HTTP/1.1" hs b).length - b.toList.length⟩, ?_, rfl, by simp, rfl⟩
    rw [hpr, show Proto.versionOf ("HTTP/1.1".toList) = some 1 from by decide]
    dsimp only
    rw [hdone]

/-- Seventeen one-character headers. -/
def c10hdrs : List (String × String) :=
  [("a", "v"), ("b", "v"), ("c", "v"), ("d", "v"), ("e", "v"), ("f", "v"), ("g", "v"),
   ("h", "v"), ("i", "v"), ("j", "v"), ("k", "v"), ("l", "v"), ("m", "v"), ("n", "v"),
   ("o", "v"), ("p", "v"), ("q", "v")]

theorem c10_witness :
    Proto.decode (Proto.renderReq "GET" "/" "HTTP/1.1" c10hdrs "") =
      .error "failed to parse http request: too many headers" :=
  (c10_header_capacity "GET" "/" c10hdrs "" (by decide) (by decide) (by decide)).1
    (by decide)

theorem c2_bug_eval :
    Taco.Proto.decode c2buf = .ok (none, "ab".toList) ∧
      c2buf.length = 43 ∧
      "ab".toList ≠ c2buf ∧
      Taco.Proto.decode ("ab".toList ++ "cde".toList) = .ok (none, "abcde".toList) := by
  decide

end Taco
